import Mathlib

/-
Verification of the fms-mobilex-bridge ingestion pipeline.

This file gives a shallow embedding, in Lean 4, of the checkpointed
ingestion and merge pipeline of the repository:

  * src/kafka_docker_temphum.py            (streaming publisher)
  * src/fms-minIO-temphum-collector/src/streaming_pipeline.py
                                           (minute collector, merge engine,
                                            batch backfill coordinator,
                                            paginated window fetcher)

Python dictionaries are embedded as association lists over a small value
type; Python string comparison (used on ISO-8601 timestamps) is embedded
as lexicographic comparison of the lists of characters, exactly as CPython
compares str values code point by code point.  Fallible operations
(network requests, object-store reads, JSON parsing) are embedded either
with Except or with explicit environment records that say, for each call
the code makes, whether it raised.  I/O side effects (producer sends,
object puts and deletes, sleeps) are embedded as explicit event traces so
that ordering properties can be stated.
-/

namespace FmsBridge

/-- Scalar values held in documents (the values of the Python dicts the
pipeline manipulates): null, strings, numbers.  Numbers are embedded as
integers; no claim computes with their magnitude. -/
inductive Val where
  | vnull : Val
  | vstr (s : String) : Val
  | vnum (n : Int) : Val
deriving DecidableEq, Repr

/-- A document: a Python dict with string keys in insertion order. -/
abbrev Doc := List (String × Val)

/-- Dict lookup, first matching key (keys are unique in a Python dict). -/
def docGet : Doc → String → Option Val
  | [], _ => none
  | (k2, v) :: rest, k => if k2 = k then some v else docGet rest k

/-- Membership test for a key, the Python expression (k in d). -/
def docHasKey (d : Doc) (k : String) : Bool :=
  (docGet d k).isSome

/-- Replace the value of an existing key, keeping insertion order. -/
def docSet : Doc → String → Val → Doc
  | [], _, _ => []
  | (k2, v2) :: rest, k, v =>
    if k2 = k then (k2, v) :: rest else (k2, v2) :: docSet rest k v

/-- Python dict assignment d[k] = v: overwrite in place if the key
exists, otherwise append at the end (insertion order). -/
def dictInsert (d : Doc) (k : String) (v : Val) : Doc :=
  if docHasKey d k then docSet d k v else d ++ [(k, v)]

/-- Code-point comparison of characters, as CPython compares str
characters. -/
def charLt (a b : Char) : Bool :=
  a.val.toNat < b.val.toNat

/-- Lexicographic comparison of character lists: the CPython semantics of
the < operator on str values. -/
def lexLt : List Char → List Char → Bool
  | [], [] => false
  | [], _ :: _ => true
  | _ :: _, [] => false
  | a :: as, b :: bs =>
    if charLt a b then true
    else if charLt b a then false
    else lexLt as bs

/-- Python string comparison a < b (all the timestamps the pipeline
compares are ISO-8601 strings, compared as plain strings). -/
def pyStrLt (a b : String) : Bool :=
  lexLt a.data b.data

/-- Python string comparison a <= b, expressed through pyStrLt. -/
def pyStrLe (a b : String) : Bool :=
  !(pyStrLt b a)

/-- Python truthiness of a value (None, empty string and zero are
falsy). -/
def truthy : Val → Bool
  | .vnull => false
  | .vstr s => s != ""
  | .vnum n => n != 0

/-
Streaming publisher, src/kafka_docker_temphum.py.
-/

/-- State of a checkpoint file on disk: missing, existing but unreadable
or unparsable, or parsed to a JSON object. -/
inductive FileState where
  | absent : FileState
  | corrupt : FileState
  | parsed (d : Doc) : FileState
deriving Repr

/-- load_checkpoint, kafka_docker_temphum.py lines 67-72.  A missing file
yields the default; an existing file is opened and json.load is applied
with no exception handler, so a file that cannot be read or parsed raises
(embedded as Except.error); a parsed object yields its last_timestamp
value, defaulting when the key is missing. -/
def load_checkpoint (fs : FileState) (default_ts : String) : Except Unit Val :=
  match fs with
  | .absent => .ok (.vstr default_ts)
  | .corrupt => .error ()
  | .parsed d => .ok ((docGet d "last_timestamp").getD (.vstr default_ts))

/-- filter_fields, kafka_docker_temphum.py lines 119-133: keep only the
requested fields (all fields when the list is empty), then make sure
@timestamp is carried over when the source document has it. -/
def filter_fields (doc : Doc) (keep_fields : List String) : Doc :=
  if keep_fields = [] then doc
  else
    let filtered := keep_fields.foldl (fun acc f =>
      match docGet doc f with
      | some v => dictInsert acc f v
      | none => acc) []
    match docGet doc "@timestamp" with
    | some v =>
      if docHasKey filtered "@timestamp" then filtered
      else filtered ++ [("@timestamp", v)]
    | none => filtered

/-- base_schema, kafka_docker_temphum.py lines 136-145. -/
def base_schema : Doc :=
  [("@timestamp", .vnull), ("objId", .vnull), ("rsctypeId", .vnull),
   ("TEMPERATURE", .vnull), ("TEMPERATURE1", .vnull),
   ("HUMIDITY", .vnull), ("HUMIDITY1", .vnull)]

/-- apply_base_schema, kafka_docker_temphum.py lines 147-152: start from a
copy of the schema and copy over every document value whose key the
schema has. -/
def apply_base_schema (doc : Doc) (schema : Doc) : Doc :=
  doc.foldl (fun acc kv =>
    if docHasKey acc kv.1 then docSet acc kv.1 kv.2 else acc) schema

/-- is_effectively_empty, kafka_docker_temphum.py lines 154-163: true when
every field other than @timestamp is null. -/
def is_effectively_empty (doc : Doc) : Bool :=
  doc.all (fun kv => kv.1 == "@timestamp" || kv.2 == Val.vnull)

/-- The projection applied to each fetched document in the main loop,
kafka_docker_temphum.py lines 204-207. -/
def projectRecord (keep : List String) (d : Doc) : Doc :=
  apply_base_schema (filter_fields d keep) base_schema

/-- The timestamp bookkeeping of main, kafka_docker_temphum.py lines
201 and 218-219: doc_ts = doc.get("@timestamp") and later
(if doc_ts and doc_ts > local_max_ts: local_max_ts = doc_ts).
A falsy timestamp leaves the cursor alone; a truthy string is compared;
comparing a truthy non-string against a string raises TypeError in
Python 3, embedded as none. -/
def tsUpdate (ts : Option Val) (cur : String) : Option String :=
  match ts with
  | none => some cur
  | some v =>
    if truthy v then
      match v with
      | .vstr s => some (if pyStrLt cur s then s else cur)
      | _ => none
    else some cur

/-- Observable effects of one publisher tick: a producer send of a
projected record, the producer flush, the checkpoint rewrite. -/
inductive KEvent where
  | send (u : Doc) : KEvent
  | flush : KEvent
  | save (ts : String) : KEvent
deriving DecidableEq, Repr

/-- Failure environment of one publisher tick: the fetch result (none
when fetch_new_docs raises), whether the n-th producer send succeeds, and
whether the flush succeeds. -/
structure TickEnv where
  fetchRes : Option (List Doc)
  sendOk : Nat → Bool
  flushOk : Bool

/-- The loop body of main over the fetched documents,
kafka_docker_temphum.py lines 200-219: project, skip effectively empty
records, send, update the local maximum timestamp.  Returns the emitted
events and (some localMax) on success, none when a send raised or the
timestamp comparison raised. -/
def pubLoop (keep : List String) (sendOk : Nat → Bool) :
    List Doc → Nat → String → List KEvent × Option String
  | [], _, lm => ([], some lm)
  | d :: rest, n, lm =>
    let u := projectRecord keep d
    if is_effectively_empty u then pubLoop keep sendOk rest n lm
    else if !(sendOk n) then ([], none)
    else
      match tsUpdate (docGet d "@timestamp") lm with
      | none => ([KEvent.send u], none)
      | some lm2 =>
        let res := pubLoop keep sendOk rest (n + 1) lm2
        (KEvent.send u :: res.1, res.2)

/-- One tick of the publisher main loop, kafka_docker_temphum.py lines
190-231: fetch, publish each surviving record, flush, and rewrite the
checkpoint only when the local maximum moved.  Any exception lands in the
except handler with the checkpoint untouched. -/
def runTick (keep : List String) (env : TickEnv) (ckpt : String) :
    List KEvent × String :=
  match env.fetchRes with
  | none => ([], ckpt)
  | some [] => ([], ckpt)
  | some docs =>
    let res := pubLoop keep env.sendOk docs 0 ckpt
    match res.2 with
    | none => (res.1, ckpt)
    | some lm =>
      if env.flushOk then
        if lm = ckpt then (res.1 ++ [KEvent.flush], ckpt)
        else (res.1 ++ [KEvent.flush, KEvent.save lm], lm)
      else (res.1, ckpt)

/-- The checkpoint value after a whole sequence of publisher ticks. -/
def runTicks (keep : List String) (envs : List TickEnv) (ckpt : String) :
    String :=
  envs.foldl (fun c e => (runTick keep e c).2) ckpt

/-- The records of a tick that survive the emptiness check of
kafka_docker_temphum.py line 210. -/
def survivors (keep : List String) (docs : List Doc) : List Doc :=
  docs.filter (fun d => !(is_effectively_empty (projectRecord keep d)))

/-- The checkpoint cursor a successful tick computes: the fold of
tsUpdate over the surviving records only. -/
def survivorCursor (keep : List String) (docs : List Doc) (c : String) :
    Option String :=
  (survivors keep docs).foldlM (fun cur d => tsUpdate (docGet d "@timestamp") cur) c

/-- Written from the claim wording of C1, not from the source: the
maximum string timestamp over ALL records of the tick, surviving or not.
Used to compare the claim against the embedded code. -/
def claimTickMax (docs : List Doc) (c : String) : String :=
  docs.foldl (fun cur d =>
    match docGet d "@timestamp" with
    | some (.vstr s) => if pyStrLt cur s then s else cur
    | _ => cur) c

/-
Streaming pipeline checkpoint store,
src/fms-minIO-temphum-collector/src/streaming_pipeline.py lines 213-228.
-/

/-- The method named _load_checkpoint, streaming_pipeline.py lines
213-220: the whole open-and-parse is wrapped in try/except, so a missing,
unreadable or unparsable file yields the bootstrap default object rather
than raising. -/
def pipeline_load_checkpoint (fs : FileState) (defaultCkpt : Doc) : Doc :=
  match fs with
  | .parsed d => d
  | .absent => defaultCkpt
  | .corrupt => defaultCkpt

/-
Rows of the pandas frames the pipeline merges.  A frame row always has a
@timestamp column (the sort key of sort_values) plus the other projected
columns; duplicate detection by drop_duplicates compares whole rows.
-/

/-- One row of a minute, daily or weekly artifact. -/
structure Row where
  ts : String
  fields : List (String × Val)
deriving DecidableEq, Repr

/-- drop_duplicates with the default keep="first": keep each row the
first time it is seen.  The seen accumulator makes the recursion
structural. -/
def dropDupsSeen (seen : List Row) : List Row → List Row
  | [] => []
  | r :: rs =>
    if seen.contains r then dropDupsSeen seen rs
    else r :: dropDupsSeen (r :: seen) rs

/-- pandas DataFrame.drop_duplicates on whole rows. -/
def dropDuplicates (l : List Row) : List Row :=
  dropDupsSeen [] l

/-- Ascending comparison on the @timestamp column used by
sort_values("@timestamp"): string comparison of the timestamps. -/
def rowLe (a b : Row) : Bool :=
  !(pyStrLt b.ts a.ts)

/-- Insertion into a list sorted ascending by timestamp. -/
def insertRow (r : Row) : List Row → List Row
  | [] => [r]
  | x :: xs => if rowLe r x then r :: x :: xs else x :: insertRow r xs

/-- sort_values("@timestamp"): sort ascending by the timestamp column. -/
def sortByTs (l : List Row) : List Row :=
  l.foldr insertRow []

/-- The merge step used on daily artifacts (streaming_pipeline.py lines
534-535 and 547-548) and weekly artifacts (line 955): concatenate,
drop exact full-row duplicates, sort ascending by @timestamp. -/
def mergeRecords (existing newRecords : List Row) : List Row :=
  sortByTs (dropDuplicates (existing ++ newRecords))

/-
Merge and dedup engine: merge_previous_minute_data,
streaming_pipeline.py lines 479-584.
-/

/-- Outcome of reading the existing daily artifact, lines 541-557: the
except clause catches only S3Error, distinguishing NoSuchKey (start
fresh) from other S3 errors (log and return); a parquet deserialization
failure is not an S3Error and propagates out of the method. -/
inductive DailyRead where
  | notFound : DailyRead
  | s3Err : DailyRead
  | parseErr : DailyRead
  | found (rows : List Row) : DailyRead
deriving Repr

/-- Environment of one merge cycle: whether the object listing
succeeded, the download-and-parse outcome of each matching minute file,
the outcome of reading the existing daily artifact, and whether the
daily put succeeds. -/
structure MergeEnv where
  listOk : Bool
  files : List (String × Except Unit (List Row))
  dailyRead : DailyRead
  putOk : Bool

/-- Observable object-store effects of a merge cycle. -/
inductive MEv where
  | getFile (name : String) : MEv
  | getDaily : MEv
  | putDaily : MEv
  | removeFile (name : String) : MEv
deriving DecidableEq, Repr

/-- Result of a merge cycle: its event trace, the daily content put (if
the put succeeded), and whether the cycle ended in an uncaught
exception. -/
structure MergeOut where
  events : List MEv
  written : Option (List Row)
  raised : Bool
deriving DecidableEq, Repr

/-- The load loop of lines 516-530: the files whose download and parse
succeeded and whose frame is nonempty, in order.  Exactly these are
appended to dfs and processed_files. -/
def processedOf (files : List (String × Except Unit (List Row))) :
    List (String × List Row) :=
  files.filterMap (fun fr =>
    match fr.2 with
    | .ok rows => if rows.isEmpty then none else some (fr.1, rows)
    | .error _ => none)

/-- The names recorded in processed_files. -/
def processedNames (files : List (String × Except Unit (List Row))) :
    List String :=
  (processedOf files).map (fun p => p.1)

/-- The concatenation of the loaded nonempty frames (pd.concat(dfs)). -/
def processedRows (files : List (String × Except Unit (List Row))) :
    List Row :=
  ((processedOf files).map (fun p => p.2)).flatten

/-- The tail of the merge cycle from line 559: write the final frame,
and only when the put returned successfully, delete the processed minute
files (lines 574-580).  A put failure propagates (the inner block has
only a finally clause). -/
def mergePut (env : MergeEnv) (base : List MEv) (finalRows : List Row) :
    MergeOut :=
  if env.putOk then
    ⟨base ++ [MEv.putDaily] ++ (processedNames env.files).map MEv.removeFile,
     some finalRows, false⟩
  else ⟨base, none, true⟩

/-- merge_previous_minute_data, lines 479-584: list matching minute
files (a listing failure is caught and ends the cycle), load them,
merge, read the existing daily artifact, write the merged daily
artifact, then delete the consumed minute files. -/
def mergeCycle (env : MergeEnv) : MergeOut :=
  if !env.listOk then ⟨[], none, false⟩
  else if env.files.isEmpty then ⟨[], none, false⟩
  else
    let getEvs := env.files.map (fun fr => MEv.getFile fr.1)
    if (processedOf env.files).isEmpty then ⟨getEvs, none, false⟩
    else
      let merged := mergeRecords [] (processedRows env.files)
      let base := getEvs ++ [MEv.getDaily]
      match env.dailyRead with
      | .parseErr => ⟨base, none, true⟩
      | .s3Err => ⟨base, none, false⟩
      | .notFound => mergePut env base merged
      | .found ex => mergePut env base (mergeRecords ex merged)

/-
Minute collector: collect_current_minute_data and save_minute_data,
streaming_pipeline.py lines 393-477.
-/

/-- The streaming checkpoint object, lines 200-228. -/
structure StreamCkpt where
  last_timestamp : String
  last_processed_minute : Option String
deriving DecidableEq, Repr

/-- Observable effects of one collector tick. -/
inductive CEv where
  | putMinuteArtifact : CEv
  | saveCkpt : CEv
deriving DecidableEq, Repr

/-- Whether a frame built from these documents has a @timestamp column:
pd.DataFrame(docs) has the column iff some dict has the key. -/
def hasTsCol (docs : List Doc) : Bool :=
  docs.any (fun d => docHasKey d "@timestamp")

/-- save_minute_data, lines 393-427: an empty frame returns None without
writing; otherwise one minute artifact is put. -/
def save_minute_data (df : List Doc) : List CEv :=
  if df.isEmpty then [] else [CEv.putMinuteArtifact]

/-- collect_current_minute_data, lines 429-477: fetch the closed minute
window; when documents came back and they carry a @timestamp column,
save the minute artifact and then rewrite the checkpoint; otherwise do
nothing. -/
def collect_current_minute_data (docs : List Doc) (ckpt : StreamCkpt)
    (utcMinuteEnd targetMinute : String) : List CEv × StreamCkpt :=
  if docs.isEmpty then ([], ckpt)
  else if hasTsCol docs then
    (save_minute_data docs ++ [CEv.saveCkpt],
     { last_timestamp := utcMinuteEnd,
       last_processed_minute := some targetMinute })
  else ([], ckpt)

/-
Batch backfill coordinator: process_batch_mode,
streaming_pipeline.py lines 618-886.
-/

/-- The three-way outcome a week can be recorded under after its
attempts, lines 794-851. -/
inductive WeekStatus where
  | completed : WeekStatus
  | partialW : WeekStatus
  | failed : WeekStatus
deriving DecidableEq, Repr

/-- The attempt loop of lines 744-785: up to max_attempts fetches whose
results accumulate into all_docs; after a nonempty fetch, when the
expected count is positive the loop stops as successful once
len(all_docs) / expected_count >= 0.8, and when the expected count is
zero or unknown it stops as successful on any nonempty fetch.  The float
test ratio >= 0.8 is embedded as the exact comparison
4 * expected <= 5 * fetched.  Returns the cumulative fetched count and
the attempt_successful flag. -/
def fetchLoop (expected : Nat) :
    List (Except Unit (List Doc)) → Nat → Nat × Bool
  | [], acc => (acc, false)
  | a :: rest, acc =>
    match a with
    | .error _ => fetchLoop expected rest acc
    | .ok docs =>
      if docs.isEmpty then fetchLoop expected rest acc
      else
        let acc2 := acc + docs.length
        if 0 < expected then
          if 4 * expected ≤ 5 * acc2 then (acc2, true)
          else fetchLoop expected rest acc2
        else (acc2, true)

/-- The cumulative number of records fetched by the attempt loop. -/
def weekFetched (expected : Nat) (attempts : List (Except Unit (List Doc))) :
    Nat :=
  (fetchLoop expected attempts 0).1

/-- The outcome classification of lines 794-851: completely failed when
nothing was fetched, partial when records were fetched without meeting
the success criterion, completed otherwise. -/
def classifyWeek (expected : Nat)
    (attempts : List (Except Unit (List Doc))) : WeekStatus :=
  let res := fetchLoop expected attempts 0
  if ¬res.2 ∧ res.1 = 0 then .failed
  else if ¬res.2 ∧ 0 < res.1 then .partialW
  else .completed

/-- The pre-existing-file check of lines 692-700: when the object exists
but loading it raises, the existing record count falls back to zero and
processing continues (the week file will be created anew). -/
def existingCountOf (objectExists : Bool) (load : Except Unit (List Row)) :
    Nat :=
  if objectExists then
    match load with
    | .ok df => df.length
    | .error _ => 0
  else 0

/-- Result of process_and_save_week_data: the frame written (or about to
be written when the put fails) and the returned success flag. -/
structure WeekSaveOut where
  finalRows : List Row
  saved : Bool
deriving DecidableEq, Repr

/-- process_and_save_week_data, streaming_pipeline.py lines 888-982.
The pandas timestamp conversion (process_dataframe_timestamps) and the
datetime range test of lines 902-932 are wall-clock library operations;
they are passed in as the parameters conv and inWeek.  When the existing
artifact fails to load (line 958, any exception) the code logs and keeps
the new data only; a put failure is caught by the outer handler and
returns False. -/
def process_and_save_week_data (conv : Row → Row) (inWeek : Row → Bool)
    (exLoad : Except Unit (List Row)) (existing_record_count : Nat)
    (putOk : Bool) (all_docs : List Row) (hasTs : Bool) : WeekSaveOut :=
  if all_docs.isEmpty then ⟨[], false⟩
  else
    let final0 := if hasTs then (all_docs.map conv).filter inWeek else all_docs
    if hasTs ∧ final0.isEmpty then ⟨[], false⟩
    else
      let final :=
        if 0 < existing_record_count then
          match exLoad with
          | .ok ex => sortByTs (dropDuplicates (ex ++ final0))
          | .error _ => final0
        else final0
      if putOk then ⟨final, true⟩ else ⟨final, false⟩

/-
Window fetcher: fetch_elasticsearch_data_paginated,
streaming_pipeline.py lines 250-387.
-/

/-- Environment of one retry attempt: the outcome of the initial scroll
request and the outcomes of the successive scroll-continuation
requests.  The continuation list is finite because the server returns an
empty page once the cursor is exhausted; running off the end of the list
stands for that empty page. -/
structure AttemptEnv where
  initial : Except Unit (List Doc)
  pages : List (Except Unit (List Doc))

/-- Observable effects of the fetcher: the initial request, each
continuation request, and the backoff sleeps. -/
inductive FEv where
  | reqInitial : FEv
  | reqScroll : FEv
  | sleepSec (n : Nat) : FEv
deriving DecidableEq, Repr

/-- The per-hit projection of lines 306-314 and 345-354: keep the
requested fields, then carry @timestamp over from the source document. -/
def projectHit (keep : List String) (source : Doc) : Doc :=
  let filtered := keep.foldl (fun acc f =>
    match docGet source f with
    | some v => dictInsert acc f v
    | none => acc) []
  match docGet source "@timestamp" with
  | some v => dictInsert filtered "@timestamp" v
  | none => filtered

/-- The scroll-continuation loop of lines 322-364: each iteration issues
one continuation request; an empty page completes the scroll, and a
request failure is caught, logged, and breaks out of the loop keeping
everything accumulated so far (no retry). -/
def scrollLoop (keep : List String) :
    List (Except Unit (List Doc)) → List Doc → List FEv × List Doc
  | [], acc => ([], acc)
  | p :: rest, acc =>
    match p with
    | .error _ => ([FEv.reqScroll], acc)
    | .ok [] => ([FEv.reqScroll], acc)
    | .ok hits =>
      let res := scrollLoop keep rest (acc ++ hits.map (projectHit keep))
      (FEv.reqScroll :: res.1, res.2)

/-- The retry loop of lines 283-387 with the attempt index k: a failing
initial request on the last allowed attempt returns everything
accumulated so far, and otherwise sleeps min(2 ** attempt, 10) seconds
and retries; an initial request returning no hits returns the empty
list; a successful initial request consumes the scroll and returns
within the attempt. -/
def fetchAttempts (keep : List String) (maxRetries : Nat) :
    List AttemptEnv → Nat → List Doc → List FEv × List Doc
  | [], _, acc => ([], acc)
  | a :: rest, k, acc =>
    match a.initial with
    | .error _ =>
      if k = maxRetries - 1 then ([FEv.reqInitial], acc)
      else
        let res := fetchAttempts keep maxRetries rest (k + 1) acc
        (FEv.reqInitial :: FEv.sleepSec (min (2 ^ k) 10) :: res.1, res.2)
    | .ok [] => ([FEv.reqInitial], [])
    | .ok hits =>
      let res := scrollLoop keep a.pages (acc ++ hits.map (projectHit keep))
      (FEv.reqInitial :: res.1, res.2)

/-- fetch_elasticsearch_data_paginated, lines 250-387, as a whole: run
the retry loop from attempt zero with nothing accumulated.  The function
returns a plain document list: no code path lets a request exception
escape. -/
def fetch_elasticsearch_data_paginated (keep : List String)
    (maxRetries : Nat) (attempts : List AttemptEnv) : List FEv × List Doc :=
  fetchAttempts keep maxRetries attempts 0 []

/-- The number of sleep (backoff) events in a fetcher trace. -/
def sleepCount (evs : List FEv) : Nat :=
  (evs.filter (fun e =>
    match e with
    | .sleepSec _ => true
    | _ => false)).length

/-- The trace the retry loop produces when every initial request of the
remaining j attempts fails, starting at attempt index k: each failing
attempt before the last sleeps min(2 ** attempt, 10) seconds. -/
def backoffTrace : Nat → Nat → List FEv
  | _, 0 => []
  | _, 1 => [FEv.reqInitial]
  | k, j + 2 =>
    FEv.reqInitial :: FEv.sleepSec (min (2 ^ k) 10) :: backoffTrace (k + 1) (j + 1)

/-- The names whose object-store delete was issued in a merge-cycle
trace. -/
def deletedNames (evs : List MEv) : List String :=
  evs.filterMap (fun e =>
    match e with
    | .removeFile n => some n
    | _ => none)

/-- Read-only events of a merge-cycle trace. -/
def isGet : MEv → Bool
  | .getFile _ => true
  | .getDaily => true
  | _ => false

/-
Order lemmas for the embedded Python string comparison.
-/

theorem charLt_asymm {a b : Char} (h : charLt a b = true) : charLt b a = false := by
  simp only [charLt, decide_eq_true_eq, decide_eq_false_iff_not, Nat.not_lt] at h ⊢
  omega

theorem charLt_trans {a b c : Char} (h1 : charLt a b = true)
    (h2 : charLt b c = true) : charLt a c = true := by
  simp only [charLt, decide_eq_true_eq] at h1 h2 ⊢
  omega

theorem charLt_eq {a b : Char} (h1 : charLt a b = false)
    (h2 : charLt b a = false) : a = b := by
  simp only [charLt, decide_eq_false_iff_not, Nat.not_lt] at h1 h2
  exact Char.ext (UInt32.toNat.inj (Nat.le_antisymm h2 h1))

theorem lexLt_irrefl : ∀ l : List Char, lexLt l l = false
  | [] => rfl
  | a :: as => by
    have ha : charLt a a = false := by simp [charLt]
    simp [lexLt, ha, lexLt_irrefl as]

theorem lexLt_asymm : ∀ a b : List Char, lexLt a b = true → lexLt b a = false
  | [], [], h => by simp [lexLt] at h
  | [], _ :: _, _ => by simp [lexLt]
  | _ :: _, [], h => by simp [lexLt] at h
  | a :: as, b :: bs, h => by
    cases hab : charLt a b with
    | true => simp [lexLt, charLt_asymm hab, hab]
    | false =>
      cases hba : charLt b a with
      | true => simp [lexLt, hab, hba] at h
      | false =>
        simp only [lexLt, hab, hba] at h ⊢
        simp only [Bool.false_eq_true, if_false] at h ⊢
        exact lexLt_asymm as bs h

theorem lexLt_trans : ∀ a b c : List Char,
    lexLt a b = true → lexLt b c = true → lexLt a c = true
  | [], [], _, h1, _ => by simp [lexLt] at h1
  | [], _ :: _, [], _, h2 => by simp [lexLt] at h2
  | [], _ :: _, _ :: _, _, _ => by simp [lexLt]
  | _ :: _, [], _, h1, _ => by simp [lexLt] at h1
  | _ :: _, _ :: _, [], _, h2 => by simp [lexLt] at h2
  | a :: as, b :: bs, c :: cs, h1, h2 => by
    cases hab : charLt a b with
    | true =>
      cases hbc : charLt b c with
      | true => simp [lexLt, charLt_trans hab hbc]
      | false =>
        cases hcb : charLt c b with
        | true => simp [lexLt, hbc, hcb] at h2
        | false =>
          have hbceq : b = c := charLt_eq hbc hcb
          subst hbceq
          simp [lexLt, hab]
    | false =>
      cases hba : charLt b a with
      | true => simp [lexLt, hab, hba] at h1
      | false =>
        have habeq : a = b := charLt_eq hab hba
        subst habeq
        simp only [lexLt, hab] at h1 ⊢
        simp only [Bool.false_eq_true, if_false] at h1 ⊢
        cases hac : charLt a c with
        | true => simp
        | false =>
          cases hca : charLt c a with
          | true => simp [lexLt, hac, hca] at h2
          | false =>
            simp only [lexLt, hac, hca, Bool.false_eq_true, if_false] at h2 ⊢
            exact lexLt_trans as bs cs h1 h2

theorem lexLt_eq_of_not : ∀ a b : List Char,
    lexLt a b = false → lexLt b a = false → a = b
  | [], [], _, _ => rfl
  | [], _ :: _, h1, _ => by simp [lexLt] at h1
  | _ :: _, [], _, h2 => by simp [lexLt] at h2
  | a :: as, b :: bs, h1, h2 => by
    cases hab : charLt a b with
    | true => simp [lexLt, hab] at h1
    | false =>
      cases hba : charLt b a with
      | true => simp [lexLt, hba] at h2
      | false =>
        have he : a = b := charLt_eq hab hba
        have ht : as = bs :=
          lexLt_eq_of_not as bs
            (by simpa [lexLt, hab, hba] using h1)
            (by simpa [lexLt, hab, hba] using h2)
        rw [he, ht]

theorem pyStrLt_irrefl (a : String) : pyStrLt a a = false :=
  lexLt_irrefl _

theorem pyStrLt_asymm {a b : String} (h : pyStrLt a b = true) :
    pyStrLt b a = false :=
  lexLt_asymm _ _ h

theorem pyStrLt_trans {a b c : String} (h1 : pyStrLt a b = true)
    (h2 : pyStrLt b c = true) : pyStrLt a c = true :=
  lexLt_trans _ _ _ h1 h2

theorem pyStrLt_eq_of_not {a b : String} (h1 : pyStrLt a b = false)
    (h2 : pyStrLt b a = false) : a = b := by
  cases a with
  | mk da =>
    cases b with
    | mk db => exact congrArg String.mk (lexLt_eq_of_not da db h1 h2)

theorem pyStrLe_refl (a : String) : pyStrLe a a = true := by
  simp [pyStrLe, pyStrLt_irrefl]

theorem pyStrLe_of_lt {a b : String} (h : pyStrLt a b = true) :
    pyStrLe a b = true := by
  simp [pyStrLe, pyStrLt_asymm h]

theorem pyStrLe_trans {a b c : String} (h1 : pyStrLe a b = true)
    (h2 : pyStrLe b c = true) : pyStrLe a c = true := by
  simp only [pyStrLe, Bool.not_eq_true'] at h1 h2 ⊢
  cases hca : pyStrLt c a with
  | false => rfl
  | true =>
    cases hbc : pyStrLt b c with
    | true =>
      have hba := pyStrLt_trans hbc hca
      rw [hba] at h1
      cases h1
    | false =>
      have hbe : b = c := pyStrLt_eq_of_not hbc h2
      rw [hbe, hca] at h1
      cases h1

/-
Publisher tick lemmas.
-/

theorem tsUpdate_le {ts : Option Val} {cur r : String}
    (h : tsUpdate ts cur = some r) : pyStrLe cur r = true := by
  cases ts with
  | none =>
    simp only [tsUpdate, Option.some.injEq] at h
    cases h
    exact pyStrLe_refl _
  | some v =>
    cases v with
    | vnull =>
      simp only [tsUpdate, truthy] at h
      simp only [Bool.false_eq_true, if_false, Option.some.injEq] at h
      cases h
      exact pyStrLe_refl _
    | vnum n =>
      simp only [tsUpdate, truthy] at h
      split at h
      · cases h
      · simp only [Option.some.injEq] at h
        cases h
        exact pyStrLe_refl _
    | vstr s =>
      simp only [tsUpdate, truthy] at h
      split at h
      · simp only [Option.some.injEq] at h
        cases hlt : pyStrLt cur s with
        | true =>
          rw [hlt, if_pos rfl] at h
          cases h
          exact pyStrLe_of_lt hlt
        | false =>
          rw [hlt] at h
          simp only [Bool.false_eq_true, if_false] at h
          cases h
          exact pyStrLe_refl _
      · simp only [Option.some.injEq] at h
        cases h
        exact pyStrLe_refl _

theorem pubLoop_le (keep : List String) (sendOk : Nat → Bool) :
    ∀ (docs : List Doc) (n : Nat) (lm r : String),
      (pubLoop keep sendOk docs n lm).2 = some r → pyStrLe lm r = true
  | [], n, lm, r, h => by
    simp only [pubLoop, Option.some.injEq] at h
    cases h
    exact pyStrLe_refl _
  | d :: rest, n, lm, r, h => by
    simp only [pubLoop] at h
    split at h
    · exact pubLoop_le keep sendOk rest n lm r h
    · split at h
      · cases h
      · cases htu : tsUpdate (docGet d "@timestamp") lm with
        | none => rw [htu] at h; cases h
        | some lm2 =>
          rw [htu] at h
          exact pyStrLe_trans (tsUpdate_le htu)
            (pubLoop_le keep sendOk rest (n + 1) lm2 r h)

theorem runTick_le (keep : List String) (env : TickEnv) (c : String) :
    pyStrLe c (runTick keep env c).2 = true := by
  unfold runTick
  cases env.fetchRes with
  | none => exact pyStrLe_refl _
  | some docs =>
    cases docs with
    | nil => exact pyStrLe_refl _
    | cons d rest =>
      cases hr : (pubLoop keep env.sendOk (d :: rest) 0 c).2 with
      | none => simp only [hr]; exact pyStrLe_refl _
      | some lm =>
        simp only [hr]
        split
        · split
          · exact pyStrLe_refl _
          · exact pubLoop_le keep env.sendOk (d :: rest) 0 c lm hr
        · exact pyStrLe_refl _

theorem runTicks_le (keep : List String) :
    ∀ (envs : List TickEnv) (c : String),
      pyStrLe c (runTicks keep envs c) = true
  | [], c => pyStrLe_refl _
  | e :: rest, c => by
    have h1 := runTick_le keep e c
    have h2 := runTicks_le keep rest (runTick keep e c).2
    simpa [runTicks] using pyStrLe_trans h1 h2

theorem pubLoop_sends (keep : List String) (sendOk : Nat → Bool) :
    ∀ (docs : List Doc) (n : Nat) (lm : String),
      ∃ us : List Doc, (pubLoop keep sendOk docs n lm).1 = us.map KEvent.send
  | [], _, _ => ⟨[], rfl⟩
  | d :: rest, n, lm => by
    simp only [pubLoop]
    split
    · exact pubLoop_sends keep sendOk rest n lm
    · split
      · exact ⟨[], rfl⟩
      · cases htu : tsUpdate (docGet d "@timestamp") lm with
        | none => exact ⟨[projectRecord keep d], rfl⟩
        | some lm2 =>
          obtain ⟨us, hus⟩ := pubLoop_sends keep sendOk rest (n + 1) lm2
          exact ⟨projectRecord keep d :: us, by simp [hus]⟩

theorem pubLoop_events (keep : List String) (sendOk : Nat → Bool) :
    ∀ (docs : List Doc) (n : Nat) (lm : String),
      ∀ e ∈ (pubLoop keep sendOk docs n lm).1,
        ∃ u, e = KEvent.send u ∧ is_effectively_empty u = false
  | [], _, _ => by simp [pubLoop]
  | d :: rest, n, lm => by
    intro e he
    simp only [pubLoop] at he
    split at he
    · exact pubLoop_events keep sendOk rest n lm e he
    next hemp =>
      have hemp2 : is_effectively_empty (projectRecord keep d) = false := by
        simpa using hemp
      split at he
      · simp at he
      · cases htu : tsUpdate (docGet d "@timestamp") lm with
        | none =>
          rw [htu] at he
          simp only [List.mem_singleton] at he
          exact ⟨projectRecord keep d, he, hemp2⟩
        | some lm2 =>
          rw [htu] at he
          simp only [List.mem_cons] at he
          cases he with
          | inl h => exact ⟨projectRecord keep d, h, hemp2⟩
          | inr h => exact pubLoop_events keep sendOk rest (n + 1) lm2 e h

theorem pubLoop_cursor (keep : List String) (sendOk : Nat → Bool) :
    ∀ (docs : List Doc) (n : Nat) (lm r : String),
      (pubLoop keep sendOk docs n lm).2 = some r →
      survivorCursor keep docs lm = some r
  | [], n, lm, r, h => by
    simp only [pubLoop, Option.some.injEq] at h
    cases h
    simp [survivorCursor, survivors]
  | d :: rest, n, lm, r, h => by
    simp only [pubLoop] at h
    split at h
    next hemp =>
      have hs : survivors keep (d :: rest) = survivors keep rest := by
        simp [survivors, List.filter_cons, hemp]
      have := pubLoop_cursor keep sendOk rest n lm r h
      simpa [survivorCursor, hs] using this
    next hemp =>
      have hemp2 : is_effectively_empty (projectRecord keep d) = false := by
        simpa using hemp
      have hs : survivors keep (d :: rest) = d :: survivors keep rest := by
        simp [survivors, List.filter_cons, hemp2]
      split at h
      · cases h
      · cases htu : tsUpdate (docGet d "@timestamp") lm with
        | none => rw [htu] at h; cases h
        | some lm2 =>
          rw [htu] at h
          have := pubLoop_cursor keep sendOk rest (n + 1) lm2 r h
          simp only [survivorCursor] at this ⊢
          rw [hs]
          simp only [List.foldlM_cons, htu]
          simpa using this

theorem pubLoop_cursor_none (keep : List String) :
    ∀ (docs : List Doc) (n : Nat) (lm : String),
      (pubLoop keep (fun _ => true) docs n lm).2 = none →
      survivorCursor keep docs lm = none
  | [], n, lm, h => by simp [pubLoop] at h
  | d :: rest, n, lm, h => by
    simp only [pubLoop] at h
    split at h
    next hemp =>
      have hs : survivors keep (d :: rest) = survivors keep rest := by
        simp [survivors, List.filter_cons, hemp]
      have := pubLoop_cursor_none keep rest n lm h
      simpa [survivorCursor, hs] using this
    next hemp =>
      have hemp2 : is_effectively_empty (projectRecord keep d) = false := by
        simpa using hemp
      have hs : survivors keep (d :: rest) = d :: survivors keep rest := by
        simp [survivors, List.filter_cons, hemp2]
      rw [if_neg (by simp)] at h
      cases htu : tsUpdate (docGet d "@timestamp") lm with
      | none =>
        simp only [survivorCursor]
        rw [hs]
        simp [List.foldlM_cons, htu]
      | some lm2 =>
        rw [htu] at h
        have := pubLoop_cursor_none keep rest (n + 1) lm2 h
        simp only [survivorCursor] at this ⊢
        rw [hs]
        simp only [List.foldlM_cons, htu]
        simpa using this

theorem runTick_no_save (keep : List String) (env : TickEnv) (c : String)
    (h : ∀ v, KEvent.save v ∉ (runTick keep env c).1) :
    (runTick keep env c).2 = c := by
  cases hf : env.fetchRes with
  | none => simp [runTick, hf]
  | some docs =>
    cases docs with
    | nil => simp [runTick, hf]
    | cons d rest =>
      simp only [runTick, hf] at h ⊢
      cases hr : (pubLoop keep env.sendOk (d :: rest) 0 c).2 with
      | none => simp [hr]
      | some lm =>
        simp only [hr] at h ⊢
        by_cases hfl : env.flushOk = true
        · simp only [hfl, if_true] at h ⊢
          by_cases heq : lm = c
          · rw [if_pos heq]
          · rw [if_neg heq] at h
            exact absurd (by simp : KEvent.save lm ∈ _ ++ [KEvent.flush, KEvent.save lm]) (h lm)
        · have hfl2 : env.flushOk = false := by
            simpa using hfl
          simp [hfl2]

theorem runTick_save (keep : List String) (env : TickEnv) (c : String)
    (docs : List Doc) (hf : env.fetchRes = some docs) (v : String)
    (hv : KEvent.save v ∈ (runTick keep env c).1) :
    (∃ us : List Doc, (runTick keep env c).1
        = (us.map KEvent.send) ++ [KEvent.flush, KEvent.save v])
    ∧ survivorCursor keep docs c = some v
    ∧ (runTick keep env c).2 = v ∧ v ≠ c := by
  cases docs with
  | nil => simp [runTick, hf] at hv
  | cons d rest =>
    obtain ⟨us, hus⟩ := pubLoop_sends keep env.sendOk (d :: rest) 0 c
    simp only [runTick, hf] at hv ⊢
    cases hr : (pubLoop keep env.sendOk (d :: rest) 0 c).2 with
    | none =>
      simp only [hr] at hv
      rw [hus] at hv
      simp [List.mem_map] at hv
    | some lm =>
      simp only [hr] at hv ⊢
      by_cases hfl : env.flushOk = true
      · simp only [hfl, if_true] at hv ⊢
        by_cases heq : lm = c
        · rw [if_pos heq] at hv
          rw [hus] at hv
          simp [List.mem_append, List.mem_map] at hv
        · rw [if_neg heq] at hv ⊢
          rw [hus] at hv
          simp only [List.mem_append, List.mem_map, List.mem_cons,
            List.mem_singleton] at hv
          have hvlm : v = lm := by
            rcases hv with ⟨u, _, hu⟩ | hflush | hsave
            · exact absurd hu (by simp)
            · exact absurd hflush (by simp)
            · simpa using hsave
          subst hvlm
          refine ⟨⟨us, by rw [hus]⟩, pubLoop_cursor keep env.sendOk _ 0 c v hr, rfl, heq⟩
      · have hfl2 : env.flushOk = false := by simpa using hfl
        simp only [hfl2] at hv ⊢
        rw [hus] at hv
        simp [List.mem_map] at hv

/-- C1 (amended): over any sequence of streaming-publisher ticks the
checkpoint value is non-decreasing; within a tick, when the checkpoint
file is rewritten, the rewrite is the last event of the tick, coming
after every producer send and after the flush, and the value written is
the cursor folded over the records that survive the emptiness check
(not over all of the tick records); and on a tick with no checkpoint
rewrite event (fetch raised, a send raised, the flush raised, or the
cursor did not move) the checkpoint is left unchanged. -/
theorem C1_checkpoint_monotone_saved_after_flush (keep : List String)
    (envs : List TickEnv) (env : TickEnv) (c : String) :
    pyStrLe c (runTicks keep envs c) = true
    ∧ (∀ docs, env.fetchRes = some docs →
        ∀ v, KEvent.save v ∈ (runTick keep env c).1 →
          (∃ us : List Doc, (runTick keep env c).1
              = (us.map KEvent.send) ++ [KEvent.flush, KEvent.save v])
          ∧ survivorCursor keep docs c = some v
          ∧ (runTick keep env c).2 = v ∧ v ≠ c)
    ∧ ((∀ v, KEvent.save v ∉ (runTick keep env c).1) →
        (runTick keep env c).2 = c) := by
  refine ⟨runTicks_le keep envs c, ?_, runTick_no_save keep env c⟩
  intro docs hf v hv
  exact runTick_save keep env c docs hf v hv

/-- Witness for C1: a concrete successful tick from checkpoint "a" with
one surviving record stamped "b" rewrites the checkpoint to "b", the
survivor cursor. -/
theorem C1_checkpoint_monotone_saved_after_flush_witness :
    survivorCursor [] [[("@timestamp", Val.vstr "b"), ("TEMPERATURE", Val.vnum 21)]] "a"
      = some "b"
    ∧ (runTick []
        ⟨some [[("@timestamp", Val.vstr "b"), ("TEMPERATURE", Val.vnum 21)]],
         fun _ => true, true⟩ "a").2 = "b" := by
  have h := C1_checkpoint_monotone_saved_after_flush []
    [⟨some [[("@timestamp", Val.vstr "b"), ("TEMPERATURE", Val.vnum 21)]],
      fun _ => true, true⟩]
    ⟨some [[("@timestamp", Val.vstr "b"), ("TEMPERATURE", Val.vnum 21)]],
     fun _ => true, true⟩ "a"
  have h2 := h.2.1 [[("@timestamp", Val.vstr "b"), ("TEMPERATURE", Val.vnum 21)]]
    rfl "b" (by decide)
  exact ⟨h2.2.1, h2.2.2.1⟩

/-- C1 counterexample: in a tick starting from checkpoint "a" with one
surviving record stamped "b" and one effectively-empty record stamped
"c", the checkpoint is rewritten (save event) to "b", the maximum over
the surviving records, while the maximum timestamp among all of the
tick records is "c": the checkpoint is not rewritten to the maximum
timestamp observed among that tick's records. -/
theorem C1_counterexample :
    (runTick []
      ⟨some [[("@timestamp", Val.vstr "b"), ("TEMPERATURE", Val.vnum 21)],
             [("@timestamp", Val.vstr "c")]], fun _ => true, true⟩ "a").2 = "b"
    ∧ KEvent.save "b" ∈ (runTick []
      ⟨some [[("@timestamp", Val.vstr "b"), ("TEMPERATURE", Val.vnum 21)],
             [("@timestamp", Val.vstr "c")]], fun _ => true, true⟩ "a").1
    ∧ claimTickMax [[("@timestamp", Val.vstr "b"), ("TEMPERATURE", Val.vnum 21)],
             [("@timestamp", Val.vstr "c")]] "a" = "c"
    ∧ ("b" : String) ≠ "c" := by
  refine ⟨?_, ?_, ?_, ?_⟩ <;> decide

/-- C5: a record that is effectively empty after projection (every
non-timestamp field null) is never sent to the message bus, and the
checkpoint cursor of a tick is computed only over the records that
survive the emptiness check. -/
theorem C5_empty_record_suppression (keep : List String) (env : TickEnv)
    (c : String) :
    (∀ u, KEvent.send u ∈ (runTick keep env c).1 →
      is_effectively_empty u = false)
    ∧ (∀ docs, env = ⟨some docs, fun _ => true, true⟩ →
        (runTick keep env c).2 = (survivorCursor keep docs c).getD c) := by
  constructor
  · intro u hu
    cases hf : env.fetchRes with
    | none => simp [runTick, hf] at hu
    | some docs =>
      cases docs with
      | nil => simp [runTick, hf] at hu
      | cons d rest =>
        simp only [runTick, hf] at hu
        have hget : KEvent.send u ∈ (pubLoop keep env.sendOk (d :: rest) 0 c).1 := by
          cases hr : (pubLoop keep env.sendOk (d :: rest) 0 c).2 with
          | none => simpa [hr] using hu
          | some lm =>
            simp only [hr] at hu
            by_cases hfl : env.flushOk = true
            · simp only [hfl, if_true] at hu
              by_cases heq : lm = c
              · rw [if_pos heq] at hu
                simpa using hu
              · rw [if_neg heq] at hu
                simpa using hu
            · have hfl2 : env.flushOk = false := by simpa using hfl
              simpa [hfl2] using hu
        obtain ⟨u2, he, hn⟩ :=
          pubLoop_events keep env.sendOk (d :: rest) 0 c (KEvent.send u) hget
        have : u = u2 := by simpa using he
        rw [this]
        exact hn
  · intro docs henv
    subst henv
    cases docs with
    | nil => simp [runTick, survivorCursor, survivors]
    | cons d rest =>
      simp only [runTick]
      cases hr : (pubLoop keep (fun _ => true) (d :: rest) 0 c).2 with
      | none =>
        simp only [hr]
        rw [pubLoop_cursor_none keep (d :: rest) 0 c hr]
        rfl
      | some lm =>
        simp only [hr]
        rw [pubLoop_cursor keep (fun _ => true) (d :: rest) 0 c lm hr]
        by_cases heq : lm = c
        · simp only [heq, if_pos rfl, if_true]
          simp [Option.getD]
        · simp only [if_true]
          rw [if_neg heq]
          rfl

/-- Witness for C5: a concrete tick whose sent record is not
effectively empty, and whose resulting checkpoint is the survivor
cursor. -/
theorem C5_empty_record_suppression_witness :
    is_effectively_empty
      (projectRecord [] [("@timestamp", Val.vstr "b"), ("TEMPERATURE", Val.vnum 21)])
      = false
    ∧ (runTick []
        ⟨some [[("@timestamp", Val.vstr "b"), ("TEMPERATURE", Val.vnum 21)]],
         fun _ => true, true⟩ "a").2
      = (survivorCursor [] [[("@timestamp", Val.vstr "b"), ("TEMPERATURE", Val.vnum 21)]] "a").getD "a" := by
  have h := C5_empty_record_suppression []
    ⟨some [[("@timestamp", Val.vstr "b"), ("TEMPERATURE", Val.vnum 21)]],
     fun _ => true, true⟩ "a"
  exact ⟨h.1 (projectRecord [] [("@timestamp", Val.vstr "b"), ("TEMPERATURE", Val.vnum 21)]) (by decide),
         h.2 [[("@timestamp", Val.vstr "b"), ("TEMPERATURE", Val.vnum 21)]] rfl⟩

/-- C6 counterexample: the streaming publisher's load_checkpoint raises
(the json.load exception propagates; there is no handler) when the
checkpoint file exists but cannot be parsed, instead of returning the
bootstrap default; the claim that every checkpoint store falls back to
the default on a parse failure is false. -/
theorem C6_counterexample :
    load_checkpoint FileState.corrupt "1970-01-01T00:00:00Z" = Except.error () :=
  rfl

/-- C6 (amended): the merge-pipeline checkpoint store returns the
persisted checkpoint when the file parses, and returns the bootstrap
default without raising when the file is absent or cannot be read or
parsed; the streaming publisher's load_checkpoint returns the default
when the file is absent or the parsed object lacks the key, but raises
when the file exists and cannot be parsed (which is fatal, since it is
called outside the retry loop). -/
theorem C6_checkpoint_load_fallback (d : Doc) (dflt : Doc) (ts : String) :
    pipeline_load_checkpoint (FileState.parsed d) dflt = d
    ∧ pipeline_load_checkpoint FileState.absent dflt = dflt
    ∧ pipeline_load_checkpoint FileState.corrupt dflt = dflt
    ∧ load_checkpoint FileState.absent ts = Except.ok (Val.vstr ts)
    ∧ (∀ d2 : Doc, docHasKey d2 "last_timestamp" = false →
        load_checkpoint (FileState.parsed d2) ts = Except.ok (Val.vstr ts))
    ∧ load_checkpoint FileState.corrupt ts = Except.error () := by
  refine ⟨rfl, rfl, rfl, rfl, ?_, rfl⟩
  intro d2 hk
  simp only [load_checkpoint, Except.ok.injEq]
  simp only [docHasKey] at hk
  cases hg : docGet d2 "last_timestamp" with
  | none => rfl
  | some v => rw [hg] at hk; simp at hk

/-- Witness for C6 at concrete stores: a corrupt pipeline checkpoint
file yields the default object, and a parsed publisher checkpoint file
without the key yields the default timestamp. -/
theorem C6_checkpoint_load_fallback_witness :
    pipeline_load_checkpoint FileState.corrupt [("last_timestamp", Val.vstr "d")]
      = [("last_timestamp", Val.vstr "d")]
    ∧ load_checkpoint (FileState.parsed []) "z" = Except.ok (Val.vstr "z") := by
  have h := C6_checkpoint_load_fallback [] [("last_timestamp", Val.vstr "d")] "z"
  exact ⟨h.2.2.1, h.2.2.2.2.1 [] rfl⟩

/-- C9: a collector tick whose fetch returned zero documents writes no
minute artifact and leaves the streaming checkpoint unchanged; the
checkpoint fields are rewritten only on a tick that fetched at least one
document. -/
theorem C9_empty_fetch_frame (docs : List Doc) (ckpt : StreamCkpt)
    (ue tm : String) :
    (docs = [] → collect_current_minute_data docs ckpt ue tm = ([], ckpt))
    ∧ (CEv.putMinuteArtifact ∈ (collect_current_minute_data docs ckpt ue tm).1 →
        docs ≠ [])
    ∧ ((collect_current_minute_data docs ckpt ue tm).2 ≠ ckpt → docs ≠ []) := by
  refine ⟨?_, ?_, ?_⟩
  · intro h
    subst h
    simp [collect_current_minute_data]
  · intro hmem heq
    subst heq
    simp [collect_current_minute_data] at hmem
  · intro hne heq
    subst heq
    simp [collect_current_minute_data] at hne

/-- Witness for C9: the empty fetch leaves a concrete checkpoint
untouched, and a tick with one document is indeed a tick with a nonempty
fetch. -/
theorem C9_empty_fetch_frame_witness :
    collect_current_minute_data [] ⟨"a", none⟩ "u" "t" = ([], ⟨"a", none⟩)
    ∧ ([[("@timestamp", Val.vstr "b")]] : List Doc) ≠ [] := by
  refine ⟨(C9_empty_fetch_frame [] ⟨"a", none⟩ "u" "t").1 rfl, ?_⟩
  exact (C9_empty_fetch_frame [[("@timestamp", Val.vstr "b")]] ⟨"a", none⟩ "u" "t").2.1
    (by decide)

/-
Dedup and sort lemmas for the merge engine.
-/

theorem mem_dropDupsSeen : ∀ (l : List Row) (seen : List Row) (a : Row),
    a ∈ dropDupsSeen seen l ↔ (a ∈ l ∧ a ∉ seen)
  | [], seen, a => by simp [dropDupsSeen]
  | r :: rs, seen, a => by
    simp only [dropDupsSeen]
    split
    next hcon =>
      have hr : r ∈ seen := by simpa using hcon
      rw [mem_dropDupsSeen rs seen a]
      simp only [List.mem_cons]
      constructor
      · rintro ⟨h1, h2⟩
        exact ⟨Or.inr h1, h2⟩
      · rintro ⟨h1 | h1, h2⟩
        · exact absurd (h1 ▸ hr) h2
        · exact ⟨h1, h2⟩
    next hcon =>
      have hr : r ∉ seen := by simpa using hcon
      simp only [List.mem_cons, mem_dropDupsSeen rs (r :: seen) a]
      constructor
      · rintro (h | ⟨h1, h2⟩)
        · exact ⟨Or.inl h, h ▸ hr⟩
        · simp only [List.mem_cons, not_or] at h2
          exact ⟨Or.inr h1, h2.2⟩
      · rintro ⟨h1 | h1, h2⟩
        · exact Or.inl h1
        · by_cases har : a = r
          · exact Or.inl har
          · refine Or.inr ⟨h1, ?_⟩
            simp only [List.mem_cons, not_or]
            exact ⟨har, h2⟩

theorem nodup_dropDupsSeen : ∀ (l : List Row) (seen : List Row),
    (dropDupsSeen seen l).Nodup
  | [], _ => List.nodup_nil
  | r :: rs, seen => by
    simp only [dropDupsSeen]
    split
    · exact nodup_dropDupsSeen rs seen
    · refine List.nodup_cons.mpr ⟨?_, nodup_dropDupsSeen rs (r :: seen)⟩
      intro hmem
      rw [mem_dropDupsSeen] at hmem
      exact hmem.2 (List.mem_cons_self r seen)

theorem dropDupsSeen_eq_self : ∀ (l : List Row) (seen : List Row),
    l.Nodup → (∀ a ∈ l, a ∉ seen) → dropDupsSeen seen l = l
  | [], _, _, _ => rfl
  | r :: rs, seen, hnd, hdis => by
    simp only [dropDupsSeen]
    have hr : r ∉ seen := hdis r (List.mem_cons_self r rs)
    have hc : ¬(seen.contains r = true) := by simpa using hr
    rw [if_neg hc]
    congr 1
    rcases List.nodup_cons.mp hnd with ⟨hhd, htl⟩
    refine dropDupsSeen_eq_self rs (r :: seen) htl ?_
    intro a ha
    simp only [List.mem_cons, not_or]
    exact ⟨fun he => hhd (he ▸ ha), hdis a (List.mem_cons_of_mem r ha)⟩

theorem dropDupsSeen_nil_of_seen : ∀ (l : List Row) (seen : List Row),
    (∀ a ∈ l, a ∈ seen) → dropDupsSeen seen l = []
  | [], _, _ => rfl
  | r :: rs, seen, h => by
    simp only [dropDupsSeen]
    have hc : seen.contains r = true := by
      simpa using h r (List.mem_cons_self r rs)
    rw [if_pos hc]
    exact dropDupsSeen_nil_of_seen rs seen (fun a ha => h a (List.mem_cons_of_mem r ha))

theorem dropDupsSeen_append : ∀ (l m : List Row) (seen : List Row),
    (∀ a ∈ m, a ∈ seen ∨ a ∈ l) →
    dropDupsSeen seen (l ++ m) = dropDupsSeen seen l
  | [], m, seen, h => by
    simp only [List.nil_append, dropDupsSeen]
    exact dropDupsSeen_nil_of_seen m seen
      (fun a ha => (h a ha).resolve_right (by simp))
  | r :: rs, m, seen, h => by
    simp only [List.cons_append, dropDupsSeen]
    split
    next hcon =>
      have hr : r ∈ seen := by simpa using hcon
      refine dropDupsSeen_append rs m seen ?_
      intro a ha
      rcases h a ha with hs | hl
      · exact Or.inl hs
      · rcases List.mem_cons.mp hl with he | hm
        · exact Or.inl (he ▸ hr)
        · exact Or.inr hm
    next =>
      congr 1
      refine dropDupsSeen_append rs m (r :: seen) ?_
      intro a ha
      rcases h a ha with hs | hl
      · exact Or.inl (List.mem_cons_of_mem r hs)
      · rcases List.mem_cons.mp hl with he | hm
        · exact Or.inl (he ▸ List.mem_cons_self r seen)
        · exact Or.inr hm

theorem mem_dropDuplicates {l : List Row} {a : Row} :
    a ∈ dropDuplicates l ↔ a ∈ l := by
  simp [dropDuplicates, mem_dropDupsSeen]

theorem nodup_dropDuplicates (l : List Row) : (dropDuplicates l).Nodup :=
  nodup_dropDupsSeen l []

theorem dropDuplicates_eq_self {l : List Row} (h : l.Nodup) :
    dropDuplicates l = l :=
  dropDupsSeen_eq_self l [] h (by simp)

theorem dropDuplicates_append {l m : List Row} (h : ∀ a ∈ m, a ∈ l) :
    dropDuplicates (l ++ m) = dropDuplicates l :=
  dropDupsSeen_append l m [] (fun a ha => Or.inr (h a ha))

theorem insertRow_perm (r : Row) : ∀ l : List Row,
    (insertRow r l).Perm (r :: l)
  | [] => List.Perm.refl _
  | x :: xs => by
    simp only [insertRow]
    split
    · exact List.Perm.refl _
    · exact List.Perm.trans (List.Perm.cons x (insertRow_perm r xs))
        (List.Perm.swap r x xs)

theorem sortByTs_perm : ∀ l : List Row, (sortByTs l).Perm l
  | [] => List.Perm.refl _
  | x :: xs => by
    have h1 := insertRow_perm x (sortByTs xs)
    have h2 := List.Perm.cons x (sortByTs_perm xs)
    exact List.Perm.trans h1 h2

theorem rowLe_total (a b : Row) : rowLe a b = true ∨ rowLe b a = true := by
  simp only [rowLe, Bool.not_eq_true']
  cases h : pyStrLt b.ts a.ts with
  | false => exact Or.inl rfl
  | true => exact Or.inr (pyStrLt_asymm h)

theorem rowLe_trans {a b c : Row} (h1 : rowLe a b = true)
    (h2 : rowLe b c = true) : rowLe a c = true :=
  pyStrLe_trans (a := a.ts) (b := b.ts) (c := c.ts) h1 h2

theorem pairwise_insertRow (r : Row) : ∀ (l : List Row),
    l.Pairwise (fun a b => rowLe a b = true) →
    (insertRow r l).Pairwise (fun a b => rowLe a b = true)
  | [], _ => by simp [insertRow]
  | x :: xs, h => by
    simp only [insertRow]
    rcases List.pairwise_cons.mp h with ⟨hx, hxs⟩
    split
    next hle =>
      refine List.pairwise_cons.mpr ⟨?_, h⟩
      intro y hy
      rcases List.mem_cons.mp hy with he | hm
      · exact he ▸ hle
      · exact rowLe_trans hle (hx y hm)
    next hgt =>
      have hle2 : rowLe x r = true :=
        (rowLe_total r x).resolve_left (by simpa using hgt)
      refine List.pairwise_cons.mpr ⟨?_, pairwise_insertRow r xs hxs⟩
      intro y hy
      have hy2 : y ∈ r :: xs := (insertRow_perm r xs).mem_iff.mp hy
      rcases List.mem_cons.mp hy2 with he | hm
      · exact he ▸ hle2
      · exact hx y hm

theorem pairwise_sortByTs : ∀ l : List Row,
    (sortByTs l).Pairwise (fun a b => rowLe a b = true)
  | [] => by simp [sortByTs]
  | x :: xs => pairwise_insertRow x (sortByTs xs) (pairwise_sortByTs xs)

theorem insertRow_front (x : Row) : ∀ (xs : List Row),
    (∀ y ∈ xs, rowLe x y = true) → insertRow x xs = x :: xs
  | [], _ => rfl
  | y :: ys, h => by
    simp only [insertRow]
    rw [if_pos (h y (List.mem_cons_self y ys))]

theorem sortByTs_eq_self : ∀ {l : List Row},
    l.Pairwise (fun a b => rowLe a b = true) → sortByTs l = l
  | [], _ => rfl
  | x :: xs, h => by
    rcases List.pairwise_cons.mp h with ⟨hx, hxs⟩
    show insertRow x (sortByTs xs) = x :: xs
    rw [sortByTs_eq_self hxs]
    exact insertRow_front x xs hx

/-- C2: merging the same minute record set into a daily artifact twice
yields the same record list as merging it once, where a merge
concatenates, drops exact full-row duplicates, and sorts ascending by
timestamp. -/
theorem C2_merge_idempotent (daily minute : List Row) :
    mergeRecords (mergeRecords daily minute) minute = mergeRecords daily minute := by
  have hnd : (mergeRecords daily minute).Nodup :=
    ((sortByTs_perm (dropDuplicates (daily ++ minute))).symm).nodup
      (nodup_dropDuplicates (daily ++ minute))
  have hmem : ∀ a ∈ minute, a ∈ mergeRecords daily minute := by
    intro a ha
    have h1 : a ∈ dropDuplicates (daily ++ minute) := by
      rw [mem_dropDuplicates]
      exact List.mem_append_right daily ha
    exact (sortByTs_perm (dropDuplicates (daily ++ minute))).mem_iff.mpr h1
  have hsorted : (mergeRecords daily minute).Pairwise (fun a b => rowLe a b = true) :=
    pairwise_sortByTs _
  calc mergeRecords (mergeRecords daily minute) minute
      = sortByTs (dropDuplicates (mergeRecords daily minute ++ minute)) := rfl
    _ = sortByTs (dropDuplicates (mergeRecords daily minute)) := by
        rw [dropDuplicates_append hmem]
    _ = sortByTs (mergeRecords daily minute) := by
        rw [dropDuplicates_eq_self hnd]
    _ = mergeRecords daily minute := sortByTs_eq_self hsorted

/-
Merge-cycle trace lemmas.
-/

theorem deletedNames_nil_of_gets {l : List MEv}
    (h : ∀ e ∈ l, isGet e = true) : deletedNames l = [] := by
  rw [deletedNames, List.filterMap_eq_nil_iff]
  intro e he
  cases e with
  | getFile n => rfl
  | getDaily => rfl
  | putDaily => exact absurd (h _ he) (by simp [isGet])
  | removeFile n => exact absurd (h _ he) (by simp [isGet])

theorem mergeCycle_shape (env : MergeEnv) :
    ∃ pre : List MEv, (∀ e ∈ pre, isGet e = true)
      ∧ (((mergeCycle env).events = pre
            ∧ MEv.putDaily ∉ (mergeCycle env).events)
         ∨ ((mergeCycle env).events
              = pre ++ [MEv.putDaily]
                  ++ (processedNames env.files).map MEv.removeFile
            ∧ env.putOk = true)) := by
  have hgets : ∀ e ∈ env.files.map (fun fr => MEv.getFile fr.1), isGet e = true := by
    intro e he
    simp only [List.mem_map] at he
    obtain ⟨x, _, hx⟩ := he
    rw [← hx]
    rfl
  have hbase : ∀ e ∈ env.files.map (fun fr => MEv.getFile fr.1) ++ [MEv.getDaily],
      isGet e = true := by
    intro e he
    rcases List.mem_append.mp he with h1 | h1
    · exact hgets e h1
    · simp only [List.mem_singleton] at h1
      rw [h1]
      rfl
  have hnotput : ∀ (l : List MEv), (∀ e ∈ l, isGet e = true) →
      MEv.putDaily ∉ l := by
    intro l hl hmem
    exact absurd (hl _ hmem) (by simp [isGet])
  unfold mergeCycle
  split
  · exact ⟨[], by simp, Or.inl ⟨rfl, by simp⟩⟩
  · split
    · exact ⟨[], by simp, Or.inl ⟨rfl, by simp⟩⟩
    · split
      · exact ⟨env.files.map (fun fr => MEv.getFile fr.1), hgets,
          Or.inl ⟨rfl, hnotput _ hgets⟩⟩
      · split
        next =>
          exact ⟨env.files.map (fun fr => MEv.getFile fr.1) ++ [MEv.getDaily],
            hbase, Or.inl ⟨rfl, hnotput _ hbase⟩⟩
        next =>
          exact ⟨env.files.map (fun fr => MEv.getFile fr.1) ++ [MEv.getDaily],
            hbase, Or.inl ⟨rfl, hnotput _ hbase⟩⟩
        next =>
          refine ⟨env.files.map (fun fr => MEv.getFile fr.1) ++ [MEv.getDaily],
            hbase, ?_⟩
          unfold mergePut
          split
          next hput => exact Or.inr ⟨rfl, hput⟩
          next => exact Or.inl ⟨rfl, hnotput _ hbase⟩
        next ex =>
          refine ⟨env.files.map (fun fr => MEv.getFile fr.1) ++ [MEv.getDaily],
            hbase, ?_⟩
          unfold mergePut
          split
          next hput => exact Or.inr ⟨rfl, hput⟩
          next => exact Or.inl ⟨rfl, hnotput _ hbase⟩

theorem deletedNames_removes : ∀ names : List String,
    deletedNames (names.map MEv.removeFile) = names
  | [] => rfl
  | n :: rest => by
    simp only [List.map_cons, deletedNames, List.filterMap_cons]
    exact congrArg (List.cons n) (deletedNames_removes rest)

theorem deletedNames_shape (pre : List MEv) (names : List String)
    (h : ∀ e ∈ pre, isGet e = true) :
    deletedNames (pre ++ [MEv.putDaily] ++ names.map MEv.removeFile) = names := by
  simp only [deletedNames, List.filterMap_append]
  rw [← deletedNames, ← deletedNames, ← deletedNames,
    deletedNames_nil_of_gets h, deletedNames_removes]
  rfl

theorem mem_processedNames {files : List (String × Except Unit (List Row))}
    {nm : String} (h : nm ∈ processedNames files) :
    ∃ rows, (nm, Except.ok rows) ∈ files ∧ rows ≠ [] := by
  simp only [processedNames, List.mem_map] at h
  obtain ⟨p, hp, hnm⟩ := h
  simp only [processedOf, List.mem_filterMap] at hp
  obtain ⟨fr, hfr, hmk⟩ := hp
  cases fr with
  | mk nm2 res =>
    cases res with
    | error e => simp at hmk
    | ok rows =>
      simp only at hmk
      split at hmk
      · cases hmk
      next hne =>
        cases hmk
        refine ⟨rows, ?_, ?_⟩
        · rw [← hnm]
          exact hfr
        · intro hr
          rw [hr] at hne
          simp at hne

theorem putDaily_mem_take {pre rest : List MEv} {n : Nat}
    (hn : pre.length < n) :
    MEv.putDaily ∈ (pre ++ MEv.putDaily :: rest).take n := by
  rw [List.take_append_eq_append_take]
  refine List.mem_append_right _ ?_
  cases hx : n - pre.length with
  | zero => omega
  | succ m =>
    rw [List.take_succ_cons]
    exact List.mem_cons_self _ _

/-- C4: in every merge cycle, no minute-artifact delete happens before
the daily-artifact put has returned successfully: a prefix of the
cycle's event trace that contains no daily put contains no delete; and
when the put raises, no minute artifact is deleted in that cycle. -/
theorem C4_no_delete_before_put (env : MergeEnv) (n : Nat) :
    (MEv.putDaily ∉ ((mergeCycle env).events.take n) →
      deletedNames ((mergeCycle env).events.take n) = [])
    ∧ (env.putOk = false → deletedNames (mergeCycle env).events = []) := by
  obtain ⟨pre, hpre, hcase⟩ := mergeCycle_shape env
  constructor
  · intro hnp
    rcases hcase with ⟨hev, _⟩ | ⟨hev, _⟩
    · rw [hev] at hnp ⊢
      exact deletedNames_nil_of_gets
        (fun e he => hpre e (List.take_subset n pre he))
    · rw [hev] at hnp ⊢
      rw [List.append_assoc] at hnp ⊢
      have hle : n ≤ pre.length := by
        by_contra hgt
        push_neg at hgt
        exact hnp (putDaily_mem_take hgt)
      have h0 : n - pre.length = 0 := by omega
      rw [List.take_append_eq_append_take, h0, List.take_zero, List.append_nil]
      exact deletedNames_nil_of_gets
        (fun e he => hpre e (List.take_subset n pre he))
  · intro hput
    rcases hcase with ⟨hev, _⟩ | ⟨_, hok⟩
    · rw [hev]
      exact deletedNames_nil_of_gets hpre
    · rw [hok] at hput
      cases hput

/-- Witness for C4 at a concrete cycle whose put raises: nothing is
deleted, neither in the prefix nor in the whole trace. -/
theorem C4_no_delete_before_put_witness :
    deletedNames ((mergeCycle ⟨true, [("f1", Except.ok [⟨"b", []⟩])],
        DailyRead.notFound, false⟩).events.take 5) = []
    ∧ deletedNames (mergeCycle ⟨true, [("f1", Except.ok [⟨"b", []⟩])],
        DailyRead.notFound, false⟩).events = [] := by
  have h := C4_no_delete_before_put
    ⟨true, [("f1", Except.ok [⟨"b", []⟩])], DailyRead.notFound, false⟩ 5
  exact ⟨h.1 (by decide), h.2 rfl⟩

/-- C10 (amended): in a merge cycle whose daily put succeeds, the minute
artifacts deleted are exactly those the cycle successfully downloaded
and parsed and that contained at least one record; and in every cycle
(also one whose put or daily read fails), any deleted minute artifact is
one that was downloaded and parsed successfully with at least one
record. -/
theorem C10_deleted_exactly_processed (env : MergeEnv) :
    (MEv.putDaily ∈ (mergeCycle env).events →
      deletedNames (mergeCycle env).events = processedNames env.files)
    ∧ (∀ nm, nm ∈ deletedNames (mergeCycle env).events →
        ∃ rows, (nm, Except.ok rows) ∈ env.files ∧ rows ≠ []) := by
  obtain ⟨pre, hpre, hcase⟩ := mergeCycle_shape env
  constructor
  · intro hmem
    rcases hcase with ⟨hev, hnp⟩ | ⟨hev, _⟩
    · exact absurd hmem hnp
    · rw [hev]
      exact deletedNames_shape pre _ hpre
  · intro nm hnm
    rcases hcase with ⟨hev, _⟩ | ⟨hev, _⟩
    · rw [hev, deletedNames_nil_of_gets hpre] at hnm
      cases hnm
    · rw [hev, deletedNames_shape pre _ hpre] at hnm
      exact mem_processedNames hnm

/-- Witness for C10: a concrete successful cycle with one good nonempty
file, one failing file and one empty file deletes exactly the good
one. -/
theorem C10_deleted_exactly_processed_witness :
    deletedNames (mergeCycle ⟨true,
      [("f1", Except.ok [⟨"b", []⟩]), ("f2", Except.error ()),
       ("f3", Except.ok [])], DailyRead.notFound, true⟩).events
      = processedNames
        [("f1", Except.ok [⟨"b", []⟩]), ("f2", Except.error ()),
         ("f3", Except.ok [])]
    ∧ ∃ rows, (("f1", Except.ok rows)
        ∈ [("f1", Except.ok [⟨"b", []⟩]), ("f2", Except.error ()),
           ("f3", Except.ok ([] : List Row))]) ∧ rows ≠ [] := by
  have h := C10_deleted_exactly_processed
    ⟨true, [("f1", Except.ok [⟨"b", []⟩]), ("f2", Except.error ()),
            ("f3", Except.ok [])], DailyRead.notFound, true⟩
  exact ⟨h.1 (by decide), h.2 "f1" (by decide)⟩

/-- C10 counterexample: in a cycle whose daily put raises, the good
nonempty minute artifact is processed but nothing is deleted, so the
deleted set is not exactly the processed set in every cycle. -/
theorem C10_counterexample :
    deletedNames (mergeCycle ⟨true, [("f1", Except.ok [⟨"b", []⟩])],
      DailyRead.notFound, false⟩).events = []
    ∧ processedNames [("f1", Except.ok [⟨"b", ([] : List (String × Val))⟩])] = ["f1"]
    ∧ (["f1"] : List String) ≠ [] := by
  refine ⟨?_, ?_, ?_⟩ <;> decide

/-- C7 (amended): a deserialization error on an existing weekly
artifact during batch processing is treated as if the artifact were
absent: the pre-check count falls back to zero and
process_and_save_week_data proceeds with only the fresh data instead of
aborting; in the merge cycle a missing daily artifact (NoSuchKey) is
likewise treated as an empty starting point, but a deserialization
error on an existing daily artifact is not caught there: the cycle
raises and nothing is written or deleted. -/
theorem C7_read_error_fallback (conv : Row → Row) (inWeek : Row → Bool)
    (c : Nat) (putOk : Bool) (docs : List Row) (hasTs : Bool)
    (env : MergeEnv) (objExists : Bool) :
    (process_and_save_week_data conv inWeek (Except.error ()) c putOk docs hasTs
      = process_and_save_week_data conv inWeek (Except.error ()) 0 putOk docs hasTs)
    ∧ existingCountOf objExists (Except.error ()) = 0
    ∧ (env.listOk = true → (processedOf env.files).isEmpty = false →
        env.files.isEmpty = false → env.putOk = true →
        env.dailyRead = DailyRead.notFound →
        (mergeCycle env).raised = false
        ∧ (mergeCycle env).written
            = some (mergeRecords [] (processedRows env.files)))
    ∧ (env.listOk = true → (processedOf env.files).isEmpty = false →
        env.files.isEmpty = false →
        env.dailyRead = DailyRead.parseErr →
        (mergeCycle env).raised = true
        ∧ MEv.putDaily ∉ (mergeCycle env).events
        ∧ (mergeCycle env).written = none) := by
  refine ⟨?_, ?_, ?_, ?_⟩
  · cases c with
    | zero => rfl
    | succ k =>
      unfold process_and_save_week_data
      simp
  · cases objExists with
    | false => rfl
    | true => rfl
  · intro h1 h2 h3 h4 h5
    simp [mergeCycle, mergePut, h1, h2, h3, h4, h5]
  · intro h1 h2 h3 h4
    simp [mergeCycle, mergePut, h1, h2, h3, h4]

/-- Witness for C7: concrete weekly save with a failing existing-file
load proceeding identically to the fresh case, a zero fallback count,
and the two concrete daily-read outcomes. -/
theorem C7_read_error_fallback_witness :
    process_and_save_week_data (fun r => r) (fun _ => true)
      (Except.error ()) 3 true [⟨"b", []⟩] true
      = process_and_save_week_data (fun r => r) (fun _ => true)
        (Except.error ()) 0 true [⟨"b", []⟩] true
    ∧ existingCountOf true (Except.error ()) = 0
    ∧ (mergeCycle ⟨true, [("f1", Except.ok [⟨"b", []⟩])],
        DailyRead.notFound, true⟩).raised = false
    ∧ (mergeCycle ⟨true, [("f1", Except.ok [⟨"b", []⟩])],
        DailyRead.parseErr, true⟩).raised = true := by
  have h1 := C7_read_error_fallback (fun r => r) (fun _ => true) 3 true
    [⟨"b", []⟩] true
    ⟨true, [("f1", Except.ok [⟨"b", []⟩])], DailyRead.notFound, true⟩ true
  have h2 := C7_read_error_fallback (fun r => r) (fun _ => true) 3 true
    [⟨"b", []⟩] true
    ⟨true, [("f1", Except.ok [⟨"b", []⟩])], DailyRead.parseErr, true⟩ true
  exact ⟨h1.1, h1.2.1, (h1.2.2.1 rfl (by decide) rfl rfl rfl).1,
    (h2.2.2.2 rfl (by decide) rfl rfl).1⟩

/-- C7 counterexample: a merge cycle that finds an existing daily
artifact whose parquet deserialization fails does not proceed with
fresh data: the exception is not an S3Error, nothing catches it, the
cycle raises, and no daily put happens. -/
theorem C7_counterexample :
    (mergeCycle ⟨true, [("f1", Except.ok [⟨"b", []⟩])],
      DailyRead.parseErr, true⟩).raised = true
    ∧ MEv.putDaily ∉ (mergeCycle ⟨true, [("f1", Except.ok [⟨"b", []⟩])],
      DailyRead.parseErr, true⟩).events := by
  refine ⟨?_, ?_⟩ <;> decide

/-
Batch week-classification lemmas.
-/

theorem fetchLoop_spec (expected : Nat) :
    ∀ (attempts : List (Except Unit (List Doc))) (acc : Nat),
      (0 < expected → 5 * acc < 4 * expected) →
      (expected = 0 → acc = 0) →
      ((fetchLoop expected attempts acc).2 = true ↔
        ((0 < expected
            ∧ 4 * expected ≤ 5 * (fetchLoop expected attempts acc).1)
         ∨ (expected = 0 ∧ 1 ≤ (fetchLoop expected attempts acc).1)))
      ∧ acc ≤ (fetchLoop expected attempts acc).1
  | [], acc, hlt, hz => by
    simp only [fetchLoop]
    refine ⟨?_, Nat.le_refl acc⟩
    constructor
    · intro h
      simp at h
    · intro h
      rcases h with ⟨he, hle⟩ | ⟨he, hle⟩
      · have := hlt he
        omega
      · have := hz he
        omega
  | .error e :: rest, acc, hlt, hz => by
    simp only [fetchLoop]
    exact fetchLoop_spec expected rest acc hlt hz
  | .ok docs :: rest, acc, hlt, hz => by
    simp only [fetchLoop]
    split
    · exact fetchLoop_spec expected rest acc hlt hz
    next hne =>
      have hlen : 1 ≤ docs.length := by
        cases docs with
        | nil => simp at hne
        | cons x xs => simp
      split
      next hpos =>
        split
        next hok =>
          refine ⟨⟨fun _ => Or.inl ⟨hpos, hok⟩, fun _ => rfl⟩, by omega⟩
        next hbad =>
          have hrec := fetchLoop_spec expected rest (acc + docs.length)
            (fun _ => by omega) (fun h0 => by omega)
          exact ⟨hrec.1, le_trans (by omega) hrec.2⟩
      next hnpos =>
        have he : expected = 0 := by omega
        refine ⟨⟨fun _ => Or.inr ⟨he, by omega⟩, fun _ => rfl⟩, by omega⟩

/-- C3: the batch coordinator classifies a week as completed exactly
when the pre-flight expected count is positive and the cumulative
fetched count divided by the expected count is at least 0.8 (embedded
as the exact comparison 4 * expected <= 5 * fetched), or the expected
count is zero or unknown and at least one record was fetched; as
partial exactly when records were fetched without meeting the
criterion; and as failed exactly when zero records were fetched across
all attempts. -/
theorem C3_week_classification (expected : Nat)
    (attempts : List (Except Unit (List Doc))) :
    (classifyWeek expected attempts = WeekStatus.completed ↔
      ((0 < expected ∧ 4 * expected ≤ 5 * weekFetched expected attempts)
       ∨ (expected = 0 ∧ 1 ≤ weekFetched expected attempts)))
    ∧ (classifyWeek expected attempts = WeekStatus.failed ↔
        weekFetched expected attempts = 0)
    ∧ (classifyWeek expected attempts = WeekStatus.partialW ↔
        (1 ≤ weekFetched expected attempts
         ∧ ¬((0 < expected ∧ 4 * expected ≤ 5 * weekFetched expected attempts)
             ∨ (expected = 0 ∧ 1 ≤ weekFetched expected attempts)))) := by
  have hspec := fetchLoop_spec expected attempts 0
    (fun _ => by omega) (fun _ => rfl)
  obtain ⟨hiff, -⟩ := hspec
  simp only [classifyWeek, weekFetched] at hiff ⊢
  rcases hres : fetchLoop expected attempts 0 with ⟨n, s⟩
  rw [hres] at hiff
  dsimp only at hiff ⊢
  cases s with
  | true =>
    have hRHS := hiff.mp rfl
    have hn : 1 ≤ n := by
      rcases hRHS with ⟨he, hle⟩ | ⟨he, hle⟩ <;> omega
    rw [if_neg (by rintro ⟨h1, -⟩; exact h1 rfl),
      if_neg (by rintro ⟨h1, -⟩; exact h1 rfl)]
    refine ⟨⟨fun _ => hRHS, fun _ => rfl⟩, ?_, ?_⟩
    · constructor
      · intro h
        cases h
      · intro h0
        omega
    · constructor
      · intro h
        cases h
      · rintro ⟨-, h2⟩
        exact absurd hRHS h2
  | false =>
    have hnot : ¬((0 < expected ∧ 4 * expected ≤ 5 * n)
        ∨ (expected = 0 ∧ 1 ≤ n)) := by
      intro h
      cases hiff.mpr h
    cases n with
    | zero =>
      rw [if_pos ⟨by simp, rfl⟩]
      refine ⟨?_, ⟨fun _ => rfl, fun _ => rfl⟩, ?_⟩
      · constructor
        · intro h
          cases h
        · intro h
          exact absurd h hnot
      · constructor
        · intro h
          cases h
        · rintro ⟨h1, -⟩
          omega
    | succ m =>
      rw [if_neg (by rintro ⟨-, h⟩; cases h),
        if_pos ⟨by simp, by omega⟩]
      refine ⟨?_, ?_, ?_⟩
      · constructor
        · intro h
          cases h
        · intro h
          exact absurd h hnot
      · constructor
        · intro h
          cases h
        · intro h
          cases h
      · exact ⟨fun _ => ⟨by omega, hnot⟩, fun _ => rfl⟩

/-
Window fetcher retry lemmas.
-/

theorem fetchAttempts_all_fail (keep : List String) (maxRetries : Nat) :
    ∀ (j k : Nat) (acc : List Doc), k + j = maxRetries → 1 ≤ j →
      fetchAttempts keep maxRetries
        (List.replicate j ⟨Except.error (), []⟩) k acc
        = (backoffTrace k j, acc)
  | 0, k, acc, hk, hj => by omega
  | 1, k, acc, hk, hj => by
    simp only [List.replicate, fetchAttempts]
    rw [if_pos (by omega : k = maxRetries - 1)]
    rfl
  | j + 2, k, acc, hk, hj => by
    have hrec := fetchAttempts_all_fail keep maxRetries (j + 1) (k + 1) acc
      (by omega) (by omega)
    rw [List.replicate_succ]
    simp only [List.replicate_succ, fetchAttempts] at hrec ⊢
    rw [if_neg (by omega : ¬(k = maxRetries - 1))]
    rw [hrec]
    rfl

/-- C8 (amended): a transiently failing initial scroll request is
retried with a backoff sleep of min(2 ** attempt, 10) seconds, up to
max_retries attempts, and exhausting the budget makes the fetcher
return everything accumulated so far instead of raising; a transient
failure of a scroll-continuation request, however, is not retried: the
scroll loop stops and the fetcher returns every document accumulated so
far. -/
theorem C8_retry_backoff (keep : List String) (maxRetries k : Nat)
    (a : AttemptEnv) (rest : List AttemptEnv) (acc : List Doc)
    (pages : List (Except Unit (List Doc))) :
    (a.initial = Except.error () → k = maxRetries - 1 →
      fetchAttempts keep maxRetries (a :: rest) k acc = ([FEv.reqInitial], acc))
    ∧ (a.initial = Except.error () → k ≠ maxRetries - 1 →
        fetchAttempts keep maxRetries (a :: rest) k acc
          = (FEv.reqInitial :: FEv.sleepSec (min (2 ^ k) 10)
              :: (fetchAttempts keep maxRetries rest (k + 1) acc).1,
             (fetchAttempts keep maxRetries rest (k + 1) acc).2))
    ∧ scrollLoop keep (Except.error () :: pages) acc = ([FEv.reqScroll], acc)
    ∧ (1 ≤ maxRetries →
        fetch_elasticsearch_data_paginated keep maxRetries
          (List.replicate maxRetries ⟨Except.error (), []⟩)
          = (backoffTrace 0 maxRetries, [])) := by
  refine ⟨?_, ?_, rfl, ?_⟩
  · intro hin hk
    cases a with
    | mk init pgs =>
      simp only at hin
      subst hin
      simp only [fetchAttempts]
      rw [if_pos hk]
  · intro hin hk
    cases a with
    | mk init pgs =>
      simp only at hin
      subst hin
      simp only [fetchAttempts]
      rw [if_neg hk]
  · intro hmr
    exact fetchAttempts_all_fail keep maxRetries maxRetries 0 [] (by omega) hmr

/-- Witness for C8: retrying after a concrete failing first attempt
sleeps exactly min(2 ** 0, 10) = 1 second, and a run of three failing
attempts produces the full backoff trace and returns the empty
accumulation. -/
theorem C8_retry_backoff_witness :
    fetchAttempts [] 5 [⟨Except.error (), []⟩, ⟨Except.error (), []⟩] 0 []
      = (FEv.reqInitial :: FEv.sleepSec 1
          :: (fetchAttempts [] 5 [⟨Except.error (), []⟩] 1 []).1,
         (fetchAttempts [] 5 [⟨Except.error (), []⟩] 1 []).2)
    ∧ fetch_elasticsearch_data_paginated [] 3
        (List.replicate 3 ⟨Except.error (), []⟩) = (backoffTrace 0 3, []) := by
  have h := C8_retry_backoff [] 5 0 ⟨Except.error (), []⟩
    [⟨Except.error (), []⟩] [] []
  have h2 := C8_retry_backoff [] 3 0 ⟨Except.error (), []⟩ [] [] []
  exact ⟨h.2.1 rfl (by decide), h2.2.2.2 (by decide)⟩

/-- C8 counterexample: with a successful initial request and a
transiently failing first continuation request, the fetcher performs no
backoff sleep and no further request: it immediately returns the one
accumulated projected document, so a transiently failing request during
the paginated fetch is not always retried. -/
theorem C8_counterexample :
    fetch_elasticsearch_data_paginated ["TEMPERATURE"] 5
      [⟨Except.ok [[("@timestamp", Val.vstr "a")]], [Except.error ()]⟩]
      = ([FEv.reqInitial, FEv.reqScroll], [[("@timestamp", Val.vstr "a")]])
    ∧ sleepCount [FEv.reqInitial, FEv.reqScroll] = 0 := by
  refine ⟨?_, ?_⟩ <;> decide

end FmsBridge
